import Mathlib

/-!
# Verification of the Atlas attachment downloader and the signer run-loop

Shallow embedding of `src/net/atlas/download.rs` and
`stacks-signer/src/runloop.rs` from the stacks-core repository, together
with proofs settling the frozen claims about them.

Modelling conventions:
* Rust `u32`/`u64` counters are modelled as `Nat`; arithmetic that the
  source performs with ordinary (panicking-on-overflow) operators is
  modelled with `Nat` arithmetic, while explicitly saturating/truncating
  operations (`saturating_pow`, `saturating_add`, `as u32`) are modelled
  with explicit saturation/`% 2 ^ 32`.
* `HashMap` values are modelled as association lists with key-unique
  insert (`alist_insert`), which matches `HashMap` insert/lookup/entry
  semantics; `Hash160`, `StacksBlockId`, `UrlString`,
  `QualifiedContractIdentifier` and `Txid` are modelled as `Nat` keys,
  byte strings (`Vec<u8>`) as `List Nat`.
* Rust's `Ord::cmp` on integers is `cmpNat`, `Ordering::then_with` is
  `Ordering.then` (the laziness difference is unobservable for the total
  functions modelled here).
* A Rust `BinaryHeap` is a max-heap: `pop` returns a greatest element
  with respect to `Ord`, so "popped first" between two queued elements
  means the comparison yields `Ordering.gt`.
-/

namespace Stacks

/-- Rust `Ord::cmp` on natural numbers (`u32`/`u64`/`usize` comparisons). -/
def cmpNat (a b : Nat) : Ordering :=
  if a < b then Ordering.lt else if a = b then Ordering.eq else Ordering.gt

theorem cmpNat_eq_gt {a b : Nat} : cmpNat a b = Ordering.gt ↔ b < a := by
  unfold cmpNat; split <;> [skip; split] <;> simp <;> omega

theorem cmpNat_eq_lt {a b : Nat} : cmpNat a b = Ordering.lt ↔ a < b := by
  unfold cmpNat; split <;> [skip; split] <;> simp <;> omega

theorem cmpNat_eq_eq {a b : Nat} : cmpNat a b = Ordering.eq ↔ a = b := by
  unfold cmpNat; split <;> [skip; split] <;> simp <;> omega

/-- Association-list lookup, modelling `HashMap::get`. -/
def alist_lookup {K V : Type} [DecidableEq K] : List (K × V) → K → Option V
  | [], _ => none
  | (k, v) :: rest, k' => if k = k' then some v else alist_lookup rest k'

/-- Association-list insert, modelling `HashMap::insert` / the `entry`
API: overwrites the value at an existing key, otherwise adds the key. -/
def alist_insert {K V : Type} [DecidableEq K] : List (K × V) → K → V → List (K × V)
  | [], k, v => [(k, v)]
  | (k', v') :: rest, k, v =>
    if k' = k then (k, v) :: rest else (k', v') :: alist_insert rest k v

/-- Association-list removal of a key, modelling `HashMap::remove`. -/
def alist_remove {K V : Type} [DecidableEq K] : List (K × V) → K → List (K × V)
  | [], _ => []
  | (k', v') :: rest, k =>
    if k' = k then rest else (k', v') :: alist_remove rest k

/-- `HashMap::entry(k).and_modify(f)`: applies `f` at `k` if present. -/
def alist_update {K V : Type} [DecidableEq K] : List (K × V) → K → (V → V) → List (K × V)
  | [], _, _ => []
  | (k', v') :: rest, k, f =>
    if k' = k then (k', f v') :: rest else (k', v') :: alist_update rest k f

theorem alist_lookup_insert {K V : Type} [DecidableEq K]
    (m : List (K × V)) (k k' : K) (v : V) :
    alist_lookup (alist_insert m k v) k' =
      if k = k' then some v else alist_lookup m k' := by
  induction m with
  | nil => simp [alist_insert, alist_lookup]
  | cons hd tl ih =>
    obtain ⟨k₀, v₀⟩ := hd
    by_cases h₀ : k₀ = k
    · subst h₀
      by_cases h₁ : k₀ = k'
      · subst h₁; simp [alist_insert, alist_lookup]
      · simp [alist_insert, alist_lookup, h₁]
    · by_cases h₁ : k₀ = k'
      · subst h₁
        have hkk : ¬ k = k₀ := fun h => h₀ h.symm
        simp [alist_insert, alist_lookup, h₀, hkk]
      · simp [alist_insert, alist_lookup, h₀, h₁, ih]

theorem alist_insert_ne_nil {K V : Type} [DecidableEq K]
    (m : List (K × V)) (k : K) (v : V) : alist_insert m k v ≠ [] := by
  cases m with
  | nil => simp [alist_insert]
  | cons hd tl =>
    obtain ⟨k₀, v₀⟩ := hd
    by_cases h : k₀ = k <;> simp [alist_insert, h]

/-! ## `ReliabilityReport` (src/net/atlas/download.rs, lines 1193-1246) -/

/-- Per-peer success counter. Fields are the `u32` counters of the
source struct. -/
structure ReliabilityReport where
  total_requests_sent : Nat
  total_requests_success : Nat
deriving DecidableEq, Repr

namespace ReliabilityReport

/-- `ReliabilityReport::bump_successful_requests`. -/
def bump_successful_requests (r : ReliabilityReport) : ReliabilityReport :=
  { r with
    total_requests_sent := r.total_requests_sent + 1
    total_requests_success := r.total_requests_success + 1 }

/-- `ReliabilityReport::bump_failed_requests`. -/
def bump_failed_requests (r : ReliabilityReport) : ReliabilityReport :=
  { r with total_requests_sent := r.total_requests_sent + 1 }

/-- `ReliabilityReport::empty`. -/
def empty : ReliabilityReport := ⟨0, 0⟩

/-- `ReliabilityReport::score`: `0` when no request was sent, else
`total_requests_success * 1000 / (n * 1000) + n` (integer division). -/
def score (r : ReliabilityReport) : Nat :=
  match r.total_requests_sent with
  | 0 => 0
  | n => r.total_requests_success * 1000 / (n * 1000) + n

/-- `impl Ord for ReliabilityReport`: by `score`, then by success count. -/
def cmp (a b : ReliabilityReport) : Ordering :=
  (cmpNat a.score b.score).then
    (cmpNat a.total_requests_success b.total_requests_success)

end ReliabilityReport

/-! ## `AttachmentRequest` (src/net/atlas/download.rs, lines 1003-1056) -/

/-- An attachment fetch request: content hash plus the map
`url → reliability_report` of peers advertising the content. The
`HashMap` of sources is modelled as an association list. -/
structure AttachmentRequest where
  content_hash : Nat
  sources : List (Nat × ReliabilityReport)
deriving DecidableEq, Repr

namespace AttachmentRequest

/-- `AttachmentRequest::get_most_reliable_source`: `max_by_key(score)`
over the sources (Rust's `max_by_key` keeps the later element on score
ties).  The source `expect`s a non-empty map; the empty case (modelled
with `ReliabilityReport.empty`) is never exercised by the claims, which
assume at least one source. -/
def get_most_reliable_source (r : AttachmentRequest) : Nat × ReliabilityReport :=
  match r.sources with
  | [] => (0, ReliabilityReport.empty)
  | s :: rest =>
    rest.foldl (fun best x => if best.2.score ≤ x.2.score then x else best) s

/-- `impl Ord for AttachmentRequest`:
`other.sources.len().cmp(&self.sources.len())` (note the reversal),
then the comparison of the most reliable sources' reports. -/
def cmp (a b : AttachmentRequest) : Ordering :=
  (cmpNat b.sources.length a.sources.length).then
    (ReliabilityReport.cmp a.get_most_reliable_source.2 b.get_most_reliable_source.2)

end AttachmentRequest

/-! ## `AttachmentInstance` and `AttachmentsBatch`
(src/net/atlas/download.rs, lines 1058-1191) -/

/-- A single on-chain reference to an attachment.  `Hash160`,
`StacksBlockId` and `QualifiedContractIdentifier` are modelled as `Nat`. -/
structure AttachmentInstance where
  content_hash : Nat
  attachment_index : Nat
  block_height : Nat
  index_block_hash : Nat
  contract_id : Nat
deriving DecidableEq, Repr

/-- One unit of download work keyed by a block.  `attachments_instances`
is the nested map `contract_id → (attachment_index → content_hash)`. -/
structure AttachmentsBatch where
  block_height : Nat
  index_block_hash : Nat
  attachments_instances : List (Nat × List (Nat × Nat))
  retry_count : Nat
  retry_deadline : Nat
deriving DecidableEq, Repr

namespace AttachmentsBatch

/-- `AttachmentsBatch::new`: zeroed block key, empty map. -/
def new : AttachmentsBatch := ⟨0, 0, [], 0, 0⟩

/-- The `entry(contract_id)` insert step shared by both branches of
`track_attachment`: record `attachment_index ↦ content_hash` under the
instance's contract id. -/
def track_insert (b : AttachmentsBatch) (a : AttachmentInstance) : AttachmentsBatch :=
  let inner := (alist_lookup b.attachments_instances a.contract_id).getD []
  let updated := alist_insert b.attachments_instances a.contract_id
    (alist_insert inner a.attachment_index a.content_hash)
  { b with attachments_instances := updated }

/-- `AttachmentsBatch::track_attachment`: on the first instance adopt its
`(block_height, index_block_hash)`; afterwards ignore instances whose
pair differs; otherwise record the instance's slot. -/
def track_attachment (b : AttachmentsBatch) (a : AttachmentInstance) : AttachmentsBatch :=
  if b.attachments_instances = [] then
    track_insert
      { b with block_height := a.block_height, index_block_hash := a.index_block_hash } a
  else if b.block_height ≠ a.block_height ∨ b.index_block_hash ≠ a.index_block_hash then
    b
  else
    track_insert b a

/-- `AttachmentsBatch::resolve_attachment`: for every contract's inner
map, remove all entries bound to `content_hash` (outer contract keys are
kept, as in the source, which iterates `values_mut`). -/
def resolve_attachment (b : AttachmentsBatch) (content_hash : Nat) : AttachmentsBatch :=
  let cleared := b.attachments_instances.map
    (fun cv => (cv.1, cv.2.filter (fun kv => kv.2 ≠ content_hash)))
  { b with attachments_instances := cleared }

/-- `AttachmentsBatch::attachments_instances_count`: total number of
missing slots. -/
def attachments_instances_count (b : AttachmentsBatch) : Nat :=
  b.attachments_instances.foldl (fun count a => count + a.2.length) 0

/-- `impl Ord for AttachmentsBatch`: earlier `retry_deadline` ranks
greater, then more missing instances ranks greater, then lower
`block_height` ranks greater. -/
def cmp (a b : AttachmentsBatch) : Ordering :=
  ((cmpNat b.retry_deadline a.retry_deadline).then
    (cmpNat a.attachments_instances_count b.attachments_instances_count)).then
    (cmpNat b.block_height a.block_height)

end AttachmentsBatch

/-- `u64::MAX`. -/
def U64_MAX : Nat := 2 ^ 64 - 1

/-- `2u64.saturating_pow(e)`: saturates at `u64::MAX` (which `2 ^ e`
first exceeds at `e = 64`). -/
def u64_saturating_pow2 (e : Nat) : Nat :=
  if 64 ≤ e then U64_MAX else 2 ^ e

/-- `u64::saturating_add`. -/
def u64_saturating_add (a b : Nat) : Nat :=
  min (a + b) U64_MAX

/-- `AttachmentsBatch::bump_retry_count`.  `MAX_RETRY_DELAY` is declared
in `net::atlas` outside the sources at hand and is passed as the
parameter `M`; `now` is `get_epoch_time_secs()` and `rand` the sampled
`thread_rng().gen::<u64>()`.  The exponents go through the source's
`as u32` casts, hence the `% 2 ^ 32`. -/
def bump_retry_count (M now rand : Nat) (b : AttachmentsBatch) : AttachmentsBatch :=
  let rc := b.retry_count + 1
  let delay := min M
    (u64_saturating_add (u64_saturating_pow2 (rc % 2 ^ 32))
      (rand % u64_saturating_pow2 ((rc - 1) % 2 ^ 32)))
  { b with retry_count := rc, retry_deadline := now + delay }

/-! ## `AttachmentsDownloader::pop_next_ready_batch`
(src/net/atlas/download.rs, lines 86-98) -/

/-- `BinaryHeap::peek` on the downloader's priority queue: a greatest
batch with respect to `AttachmentsBatch::cmp` (the heap's internal
arrangement among `cmp`-equal batches is unspecified; this model keeps
the earliest such element). -/
def heapPeek : List AttachmentsBatch → Option AttachmentsBatch
  | [] => none
  | b :: rest =>
    some (rest.foldl (fun best x => if AttachmentsBatch.cmp x best = Ordering.gt then x else best) b)

/-- `AttachmentsDownloader::pop_next_ready_batch`, as the popped value:
peek the queue head and pop it only when its `retry_deadline` lies
strictly before `now` (`get_epoch_time_secs()`). -/
def pop_next_ready_batch (now : Nat) (priority_queue : List AttachmentsBatch) :
    Option AttachmentsBatch :=
  match heapPeek priority_queue with
  | none => none
  | some next => if next.retry_deadline < now then some next else none

/-! ## Signer run-loop (stacks-signer/src/runloop.rs)

`Txid` is modelled as `Nat` and a block transaction is modelled by its
txid (so `tx.txid()` is the identity on the model).  Byte strings
(`Vec<u8>`, `Sha512Trunc256Sum`) are `List Nat`.  A `NakamotoBlock` is
modelled by the data the run-loop actually reads from it: its
transactions' txids and the result of `header.signature_hash()`
(`none` for the error case of the `Result`). -/

structure NakamotoBlock where
  txs : List Nat
  sigHash : Option (List Nat)
deriving DecidableEq, Repr

/-- `BlockInfo` (runloop.rs, lines 80-88). -/
structure BlockInfo where
  block : NakamotoBlock
  vote : Option (List Nat)
  valid : Bool
deriving DecidableEq, Repr

/-- `RunLoop::validate_block` (runloop.rs, lines 414-428): reject unless
`block_info.valid`; then reject as soon as any txid of the expected
`transactions` list occurs among the block's transactions. -/
def validate_block (block_info : BlockInfo) (transactions : List Nat) : Bool :=
  if !block_info.valid then
    false
  else if transactions.any (fun txid => block_info.block.txs.any (fun tx => tx = txid)) then
    false
  else
    true

/-- `RunLoop::validate_signature_share_request` (runloop.rs, lines
351-375), returning the validity flag together with the (possibly
rewritten) `request.message`.  `blocks` is the signer's block cache
`HashMap<Vec<u8>, BlockInfo>`. -/
def validate_signature_share_request (blocks : List (List Nat × BlockInfo))
    (message : List Nat) : Bool × List Nat :=
  match (alist_lookup blocks message).map (fun block_info => block_info.vote) with
  | some (some vote) => (true, vote)
  | some none => (false, message)
  | none => (true, message)

/-- `RunLoop::validate_nonce_request` (runloop.rs, lines 381-412),
returning the validity flag, the rewritten `request.message` and the
updated block cache.  `read_block` models `read_next::<NakamotoBlock>`
on the request's message bytes. -/
def validate_nonce_request (read_block : List Nat → Option NakamotoBlock)
    (blocks : List (List Nat × BlockInfo)) (transactions : List Nat)
    (message : List Nat) : Bool × List Nat × List (List Nat × BlockInfo) :=
  match read_block message with
  | none => (true, message, blocks)
  | some block =>
    match block.sigHash with
    | none => (false, message, blocks)
    | some hash =>
      let hash_bytes := hash
      let block_info := (alist_lookup blocks hash_bytes).getD ⟨block, none, false⟩
      let valid := validate_block block_info transactions
      let vote_bytes := if valid then hash_bytes else hash_bytes ++ [0x6e]
      let block_info' : BlockInfo := ⟨block_info.block, some vote_bytes, valid⟩
      (true, vote_bytes, alist_insert blocks hash_bytes block_info')

/-! ## `RunLoop::run_one_pass` (runloop.rs, lines 645-699)

The run-loop's external collaborators (the WSTS signing round and
coordinator, the stacks-node client, codecs and the random coordinator
call outcomes) are modelled as oracle functions bundled in `Externals`.
Messages sent to stacker-db, block submissions and sends on the
`result_sender` channel are collected as `Effect`s; the function's
*return value* is the last component of `RunPassResult`. -/

/-- `RunLoopCommand` (runloop.rs, lines 50-64). -/
inductive RunLoopCommand where
  | Dkg : RunLoopCommand
  | Sign (message : List Nat) (is_taproot : Bool) (merkle_root : Option Nat) : RunLoopCommand
deriving DecidableEq, Repr

/-- `State` (runloop.rs, lines 66-78). -/
inductive SignerState where
  | Uninitialized : SignerState
  | Idle : SignerState
  | Dkg : SignerState
  | Sign : SignerState
deriving DecidableEq, Repr

/-- `wsts::state_machine::OperationResult`, restricted to the shape the
run-loop inspects (`Sign` carries the signature, modelled as `Nat`). -/
inductive OperationResult where
  | SignResult (signature : Nat) : OperationResult
  | SignTaproot (signature : Nat) : OperationResult
  | Dkg (point : Nat) : OperationResult
deriving DecidableEq, Repr

/-- `wsts::net::Message`, restricted to the cases `verify_chunk`
distinguishes; requests carry their (rewritable) message bytes. -/
inductive WstsMessage where
  | SignatureShareRequest (message : List Nat) : WstsMessage
  | NonceRequest (message : List Nat) : WstsMessage
  | OtherMessage : WstsMessage
deriving DecidableEq, Repr

/-- `wsts::net::Packet`; `verifies` is the outcome of
`packet.verify(public_keys, coordinator_public_key)`. -/
structure Packet where
  msg : WstsMessage
  verifies : Bool
deriving DecidableEq, Repr

/-- `SignerMessage`, restricted to the `Packet`/non-`Packet` distinction
made by `verify_chunk`. -/
inductive SignerMessage where
  | PacketMessage (p : Packet) : SignerMessage
  | OtherVariant : SignerMessage
deriving DecidableEq, Repr

/-- `StackerDBChunkData`: slot id and raw chunk bytes. -/
structure StackerDBChunkData where
  slot_id : Nat
  data : List Nat
deriving DecidableEq, Repr

/-- `StackerDBChunksEvent`: contract id (modelled as `Nat`) plus
modified slots. -/
structure StackerDBChunksEvent where
  contract_id : Nat
  modified_slots : List StackerDBChunkData
deriving DecidableEq, Repr

/-- `BlockValidateResponse` from the stacks node. -/
inductive BlockValidateResponse where
  | Ok (block : NakamotoBlock) : BlockValidateResponse
  | Reject (block : NakamotoBlock) : BlockValidateResponse
deriving DecidableEq, Repr

/-- `SignerEvent` (libsigner). -/
inductive SignerEvent where
  | BlockProposal (response : BlockValidateResponse) : SignerEvent
  | StackerDB (event : StackerDBChunksEvent) : SignerEvent
deriving DecidableEq, Repr

/-- Externally visible side effects of one pass (payloads abstracted to
what the claims need). -/
inductive Effect where
  | SendStackerDB : Effect
  | SubmitBlockForValidation (block : NakamotoBlock) : Effect
  | SendResults (results : List OperationResult) : Effect
deriving DecidableEq, Repr

/-- The mutable state of `RunLoop` read or written by `run_one_pass`.
`coordinatorKey` models `coordinator.get_aggregate_public_key()`. -/
structure RunLoopState where
  commands : List RunLoopCommand
  state : SignerState
  blocks : List (List Nat × BlockInfo)
  transactions : List Nat
  mainnet : Bool
  signer_id : Nat
  coordinatorKey : Option Nat
deriving DecidableEq, Repr

/-- Oracles for the run-loop's external collaborators. -/
structure Externals where
  /-- `stacks_client.get_aggregate_public_key()` (the `Ok` payload;
  persistent client errors make the source panic through `expect`). -/
  aggregate_public_key : Option Nat
  /-- `bincode::deserialize::<SignerMessage>` on a chunk's bytes. -/
  decodeSignerMessage : List Nat → Option SignerMessage
  /-- `read_next::<NakamotoBlock>` on raw bytes. -/
  read_block : List Nat → Option NakamotoBlock
  /-- `block.serialize_to_vec()`. -/
  serializeBlock : NakamotoBlock → List Nat
  /-- `signing_round.process_inbound_messages`: outbound packets. -/
  signerProcess : List Packet → List Packet
  /-- `coordinator.process_inbound_messages`: outbound packets and
  operation results. -/
  coordinatorProcess : List Packet → List Packet × List OperationResult
  /-- `coordinator.get_message()`. -/
  coordMessage : List Nat
  /-- `signature.verify(aggregate_public_key, message)`. -/
  verifySig : Nat → Nat → List Nat → Bool
  /-- `signature_hash` of the block after installing the produced
  signer signature, compared against the coordinator message. -/
  signedBlockHash : NakamotoBlock → Nat → List Nat
  /-- `stackerdb.signers_contract_id()`. -/
  signersContractId : Nat
  /-- `boot_code_id(MINERS_NAME, mainnet)`. -/
  minersContractId : Bool → Nat
  /-- Successive outcomes of `coordinator.start_dkg_round` /
  `start_signing_round` inside the `execute_command` retry loop; the
  source retries until one succeeds (executions in which no call ever
  succeeds never return and are outside this total model). -/
  execOutcomes : List Bool

/-- `Sha512Trunc256Sum::from_data(&[])`, the `unwrap_or` fallback for a
failed `signature_hash` (the claims never depend on its value). -/
def sha512Trunc256_of_empty : List Nat := List.replicate 32 0

/-- `RunLoop::initialize` (runloop.rs, lines 116-134): set the aggregate
key if the node has one, else (as coordinator, here signer 0) push a
front `Dkg` command; in both cases become `Idle`. -/
def initialize_signer (ext : Externals) (rl : RunLoopState) : RunLoopState :=
  match ext.aggregate_public_key with
  | some key => { rl with coordinatorKey := some key, state := SignerState.Idle }
  | none =>
    let rl :=
      if 0 = rl.signer_id ∧ rl.commands.head? ≠ some RunLoopCommand.Dkg then
        { rl with commands := RunLoopCommand.Dkg :: rl.commands }
      else rl
    { rl with state := SignerState.Idle }

/-- `RunLoop::handle_block_validate_response` (runloop.rs, lines
214-271). -/
def handle_block_validate_response (ext : Externals) (rl : RunLoopState)
    (response : BlockValidateResponse) : RunLoopState × List Effect :=
  match response with
  | BlockValidateResponse.Ok block =>
    let h := block.sigHash.getD sha512Trunc256_of_empty
    let rl := { rl with blocks := alist_update rl.blocks h (fun bi => { bi with valid := true }) }
    if 0 = rl.signer_id then
      let cmd := RunLoopCommand.Sign (ext.serializeBlock block) false none
      ({ rl with commands := rl.commands ++ [cmd] }, [])
    else
      (rl, [])
  | BlockValidateResponse.Reject block =>
    let h := block.sigHash.getD sha512Trunc256_of_empty
    let rl := { rl with blocks := alist_update rl.blocks h (fun bi => { bi with valid := false }) }
    (rl, [Effect.SendStackerDB])

/-- `RunLoop::verify_chunk` (runloop.rs, lines 435-467): decode, check
the wsts signature, and run the request validators (which may rewrite
the message and, for nonce requests, the block cache). -/
def verify_chunk (ext : Externals) (rl : RunLoopState) (chunk : StackerDBChunkData) :
    RunLoopState × Option Packet :=
  match ext.decodeSignerMessage chunk.data with
  | some (SignerMessage.PacketMessage p) =>
    if p.verifies then
      match p.msg with
      | WstsMessage.SignatureShareRequest m =>
        match validate_signature_share_request rl.blocks m with
        | (true, m') => (rl, some ⟨WstsMessage.SignatureShareRequest m', p.verifies⟩)
        | (false, _) => (rl, none)
      | WstsMessage.NonceRequest m =>
        match validate_nonce_request ext.read_block rl.blocks rl.transactions m with
        | (true, m', blocks') =>
          ({ rl with blocks := blocks' }, some ⟨WstsMessage.NonceRequest m', p.verifies⟩)
        | (false, _, blocks') => ({ rl with blocks := blocks' }, none)
      | WstsMessage.OtherMessage => (rl, some p)
    else
      (rl, none)
  | some SignerMessage.OtherVariant => (rl, none)
  | none => (rl, none)

/-- `RunLoop::send_block_response_messages` (runloop.rs, lines 469-519):
with an aggregate key set, for each `Sign` result whose signature
verifies against the coordinator's message, remove the cached block and
broadcast an acceptance or rejection. -/
def send_block_response_messages (ext : Externals) (rl : RunLoopState)
    (operation_results : List OperationResult) : RunLoopState × List Effect :=
  match rl.coordinatorKey with
  | none => (rl, [])
  | some key =>
    operation_results.foldl
      (fun acc r =>
        match r with
        | OperationResult.SignResult signature =>
          let message := ext.coordMessage
          if ext.verifySig signature key message then
            match alist_lookup acc.1.blocks message with
            | none => acc
            | some _ =>
              ({ acc.1 with blocks := alist_remove acc.1.blocks message },
                acc.2 ++ [Effect.SendStackerDB])
          else acc
        | _ => acc)
      (rl, [])

/-- `RunLoop::send_operation_results` (runloop.rs, lines 522-540): a
non-empty result list resets the state to `Idle` and goes out on the
`result_sender` channel. -/
def send_operation_results (rl : RunLoopState) (operation_results : List OperationResult) :
    RunLoopState × List Effect :=
  if 0 < operation_results.length then
    ({ rl with state := SignerState.Idle }, [Effect.SendResults operation_results])
  else
    (rl, [])

/-- `RunLoop::handle_stackerdb_chunk_event_signers` (runloop.rs, lines
274-308). -/
def handle_stackerdb_chunk_event_signers (ext : Externals) (rl : RunLoopState)
    (event : StackerDBChunksEvent) : RunLoopState × List Effect :=
  let step := event.modified_slots.foldl
    (fun acc chunk =>
      let vc := verify_chunk ext acc.1 chunk
      (vc.1, acc.2 ++ vc.2.toList))
    (rl, ([] : List Packet))
  let rl := step.1
  let inbound_messages := step.2
  let signer_outbound_messages := ext.signerProcess inbound_messages
  let coordinator_step := ext.coordinatorProcess inbound_messages
  let effs₁ := signer_outbound_messages.map (fun _ => Effect.SendStackerDB)
  let effs₂ := coordinator_step.1.map (fun _ => Effect.SendStackerDB)
  let brm := send_block_response_messages ext rl coordinator_step.2
  let sor := send_operation_results brm.1 coordinator_step.2
  (sor.1, effs₁ ++ effs₂ ++ brm.2 ++ sor.2)

/-- `RunLoop::handle_stackerdb_chunk_event_miners` (runloop.rs, lines
311-346): decode each chunk as a block, cache it unvalidated and submit
it to the node (broadcasting a rejection on a bad signature hash). -/
def handle_stackerdb_chunk_event_miners (ext : Externals) (rl : RunLoopState)
    (event : StackerDBChunksEvent) : RunLoopState × List Effect :=
  event.modified_slots.foldl
    (fun acc chunk =>
      match ext.read_block chunk.data with
      | none => acc
      | some block =>
        match block.sigHash with
        | none => (acc.1, acc.2 ++ [Effect.SendStackerDB])
        | some h =>
          ({ acc.1 with blocks := alist_insert acc.1.blocks h ⟨block, none, false⟩ },
            acc.2 ++ [Effect.SubmitBlockForValidation block]))
    (rl, [])

/-- Successful branch of `RunLoop::execute_command` (runloop.rs, lines
138-186): broadcast the round-start packet and move to the matching
state. -/
def execute_command_success (rl : RunLoopState) (c : RunLoopCommand) :
    RunLoopState × List Effect :=
  match c with
  | RunLoopCommand.Dkg => ({ rl with state := SignerState.Dkg }, [Effect.SendStackerDB])
  | RunLoopCommand.Sign _ _ _ => ({ rl with state := SignerState.Sign }, [Effect.SendStackerDB])

/-- The `while !self.execute_command(&command)` retry loop of
`process_next_command`, driven by the oracle outcome list; an exhausted
list stands for the eventually-successful call (the source loops
forever otherwise and never returns). -/
def retry_execute_command (rl : RunLoopState) (c : RunLoopCommand) :
    List Bool → RunLoopState × List Effect
  | [] => execute_command_success rl c
  | ok :: rest =>
    if ok then execute_command_success rl c else retry_execute_command rl c rest

/-- `RunLoop::process_next_command` (runloop.rs, lines 189-211). -/
def process_next_command (ext : Externals) (rl : RunLoopState) :
    RunLoopState × List Effect :=
  match rl.state with
  | SignerState.Uninitialized => (rl, [])
  | SignerState.Idle =>
    match rl.commands with
    | [] => (rl, [])
    | c :: rest => retry_execute_command { rl with commands := rest } c ext.execOutcomes
  | SignerState.Dkg => (rl, [])
  | SignerState.Sign => (rl, [])

/-- `RunLoop::run_one_pass` (runloop.rs, lines 645-699): queue the
command, initialize when uninitialized, dispatch the event (block
proposal, `.signers` chunk, `.miners` chunk, unrecognized contract, or
nothing), then process the next command — and return `None` (the
original returns `Option<Vec<OperationResult>>`). -/
def run_one_pass (ext : Externals) (rl : RunLoopState) (event : Option SignerEvent)
    (cmd : Option RunLoopCommand) :
    RunLoopState × List Effect × Option (List OperationResult) :=
  let rl :=
    match cmd with
    | some command => { rl with commands := rl.commands ++ [command] }
    | none => rl
  let rl :=
    if rl.state = SignerState.Uninitialized then initialize_signer ext rl else rl
  let dispatched :=
    match event with
    | some (SignerEvent.BlockProposal response) =>
      handle_block_validate_response ext rl response
    | some (SignerEvent.StackerDB sdbEvent) =>
      if sdbEvent.contract_id = ext.signersContractId then
        handle_stackerdb_chunk_event_signers ext rl sdbEvent
      else if sdbEvent.contract_id = ext.minersContractId rl.mainnet then
        handle_stackerdb_chunk_event_miners ext rl sdbEvent
      else
        (rl, [])
    | none => (rl, [])
  let finished := process_next_command ext dispatched.1
  (finished.1, dispatched.2 ++ finished.2, none)

/-! ## Derived notions used by the claims -/

/-- Lookup of one missing slot of a batch: contract id, then attachment
index. -/
def batch_lookup (b : AttachmentsBatch) (c idx : Nat) : Option Nat :=
  match alist_lookup b.attachments_instances c with
  | none => none
  | some inner => alist_lookup inner idx

/-- The batch `enqueue_new_attachments` builds before pushing it on the
priority queue: `AttachmentsBatch::new()` followed by
`track_attachment` for each admitted instance. -/
def build_batch (l : List AttachmentInstance) : AttachmentsBatch :=
  l.foldl AttachmentsBatch.track_attachment AttachmentsBatch.new

/-! ## Claim theorems -/

/-- The two early-return `if`s of `validate_block` collapse to one
boolean expression. -/
theorem validate_block_eq (block_info : BlockInfo) (transactions : List Nat) :
    validate_block block_info transactions =
      (block_info.valid &&
        !(transactions.any (fun txid => block_info.block.txs.any (fun tx => tx = txid)))) := by
  unfold validate_block
  by_cases hv : block_info.valid <;>
    by_cases ha :
      transactions.any (fun txid => block_info.block.txs.any (fun tx => tx = txid)) = true <;>
    simp [hv, ha]

/-- **C1.** `validate_block(block_info, transactions)` returns `true`
iff `block_info.valid` holds and no txid of the expected-transactions
list equals the txid of any transaction of the block. -/
theorem validate_block_accepted_iff (block_info : BlockInfo) (transactions : List Nat) :
    validate_block block_info transactions = true ↔
      (block_info.valid = true ∧
        ∀ txid ∈ transactions, ∀ tx ∈ block_info.block.txs, tx ≠ txid) := by
  rw [validate_block_eq]
  simp only [Bool.and_eq_true, Bool.not_eq_true', List.any_eq_false, List.any_eq_true,
    decide_eq_true_eq, not_exists, not_and, ne_eq]

/-- **C9.** `resolve_attachment` is idempotent: applying it twice with
the same content hash removes nothing further. -/
theorem resolve_attachment_idempotent (b : AttachmentsBatch) (content_hash : Nat) :
    AttachmentsBatch.resolve_attachment (AttachmentsBatch.resolve_attachment b content_hash)
        content_hash =
      AttachmentsBatch.resolve_attachment b content_hash := by
  unfold AttachmentsBatch.resolve_attachment
  simp only [List.map_map]
  congr 1
  apply List.map_congr_left
  intro cv _
  simp only [Function.comp_apply]
  congr 1
  apply List.filter_eq_self.mpr
  intro kv hkv
  exact (List.mem_filter.mp hkv).2

/-- **C10.** `run_one_pass` returns `None` for every combination of
event and command: operation results only ever travel through the
`result_sender` channel, never through the return value. -/
theorem run_one_pass_returns_none (ext : Externals) (rl : RunLoopState)
    (event : Option SignerEvent) (cmd : Option RunLoopCommand) :
    (run_one_pass ext rl event cmd).2.2 = none := rfl

/-- The `1000` factors of `score` cancel under integer division, so the
hit-rate component is just `success / sent`. -/
theorem score_eq (r : ReliabilityReport) :
    r.score = r.total_requests_success / r.total_requests_sent + r.total_requests_sent := by
  obtain ⟨n, s⟩ := r
  match n with
  | 0 => simp [ReliabilityReport.score]
  | Nat.succ m =>
    show s * 1000 / ((m + 1) * 1000) + (m + 1) = s / (m + 1) + (m + 1)
    rw [Nat.mul_div_mul_right _ _ (by norm_num : (0 : Nat) < 1000)]

/-- **C6.** Under the struct invariant `success ≤ sent`, `score()` never
decreases across `bump_failed_requests` (the `+n` term compensates any
hit-rate drop) and strictly increases across
`bump_successful_requests`. -/
theorem score_monotone_under_bumps (r : ReliabilityReport)
    (hinv : r.total_requests_success ≤ r.total_requests_sent) :
    r.score ≤ r.bump_failed_requests.score ∧
      r.score < r.bump_successful_requests.score := by
  obtain ⟨n, s⟩ := r
  simp only [score_eq, ReliabilityReport.bump_failed_requests,
    ReliabilityReport.bump_successful_requests] at *
  rcases Nat.lt_or_ge s n with hlt | hge
  · have h₁ : s / n = 0 := Nat.div_eq_of_lt hlt
    have h₂ : s / (n + 1) = 0 := Nat.div_eq_of_lt (by omega)
    have h₃ : (s + 1) / (n + 1) = 0 ∨ (s + 1) / (n + 1) = 1 := by
      rcases Nat.lt_or_ge (s + 1) (n + 1) with h | h
      · exact Or.inl (Nat.div_eq_of_lt h)
      · have : s + 1 = n + 1 := by omega
        exact Or.inr (this ▸ Nat.div_self (by omega))
    omega
  · have hs : s = n := le_antisymm hinv hge
    subst hs
    rcases Nat.eq_zero_or_pos s with h0 | hpos
    · subst h0; simp
    · have h₁ : s / s = 1 := Nat.div_self hpos
      have h₂ : s / (s + 1) = 0 := Nat.div_eq_of_lt (by omega)
      have h₃ : (s + 1) / (s + 1) = 1 := Nat.div_self (by omega)
      omega

/-- Witness for **C6** at the concrete report `(sent, success) = (3, 2)`. -/
theorem score_monotone_under_bumps_witness :
    (ReliabilityReport.mk 3 2).score ≤ (ReliabilityReport.mk 3 2).bump_failed_requests.score ∧
      (ReliabilityReport.mk 3 2).score <
        (ReliabilityReport.mk 3 2).bump_successful_requests.score :=
  score_monotone_under_bumps (ReliabilityReport.mk 3 2) (by decide)

/-- Concrete requests for settling **C2**: `ce2A` has two sources and
`ce2B` one, all with reliability `(sent, success) = (1, 1)`; `ce2C` and
`ce2D` have one source each, of scores `2` and `0`. -/
def ce2A : AttachmentRequest := ⟨1, [(1, ⟨1, 1⟩), (2, ⟨1, 1⟩)]⟩

def ce2B : AttachmentRequest := ⟨2, [(3, ⟨1, 1⟩)]⟩

def ce2C : AttachmentRequest := ⟨3, [(4, ⟨1, 1⟩)]⟩

def ce2D : AttachmentRequest := ⟨4, [(5, ⟨0, 0⟩)]⟩

/-- **C2, counterexample.** The claim predicts that a request with
strictly more sources is popped first, i.e. compares `gt` (a Rust
`BinaryHeap` pops its `Ord`-greatest element).  At `ce2A` (two sources)
against `ce2B` (one source) the comparison instead yields `lt`: the
reversed first key of `impl Ord for AttachmentRequest` ranks the
request with *fewer* sources first. -/
theorem attachment_request_more_sources_is_popped_later :
    0 < ce2A.sources.length ∧ 0 < ce2B.sources.length ∧
      ce2B.sources.length < ce2A.sources.length ∧
      AttachmentRequest.cmp ce2A ce2B ≠ Ordering.gt ∧
      AttachmentRequest.cmp ce2A ce2B = Ordering.lt := by decide

/-- **C2, amended.** For requests with at least one source each, the
heap ranks `a` above `b` (pops it first, i.e. `cmp a b = gt`) when `a`
has strictly *fewer* sources, and on equal source counts when `a`'s most
reliable source has the strictly higher `score()`. -/
theorem attachment_request_order_amended (a b : AttachmentRequest)
    (ha : 0 < a.sources.length) (hb : 0 < b.sources.length) :
    (a.sources.length < b.sources.length → AttachmentRequest.cmp a b = Ordering.gt) ∧
      (a.sources.length = b.sources.length →
        b.get_most_reliable_source.2.score < a.get_most_reliable_source.2.score →
        AttachmentRequest.cmp a b = Ordering.gt) := by
  constructor
  · intro hlen
    unfold AttachmentRequest.cmp
    rw [cmpNat_eq_gt.mpr hlen]
    rfl
  · intro hlen hscore
    unfold AttachmentRequest.cmp
    rw [cmpNat_eq_eq.mpr hlen.symm]
    show (ReliabilityReport.cmp _ _) = _
    unfold ReliabilityReport.cmp
    rw [cmpNat_eq_gt.mpr hscore]
    rfl

/-- Witness for the amended **C2**: `ce2B` (one source) is ranked above
`ce2A` (two sources), and `ce2C` above the equal-sized `ce2D` whose best
score is lower. -/
theorem attachment_request_order_amended_witness :
    AttachmentRequest.cmp ce2B ce2A = Ordering.gt ∧
      AttachmentRequest.cmp ce2C ce2D = Ordering.gt :=
  ⟨(attachment_request_order_amended ce2B ce2A (by decide) (by decide)).1 (by decide),
    (attachment_request_order_amended ce2C ce2D (by decide) (by decide)).2 (by decide) (by decide)⟩

/-- The peeked element of the priority queue is one of its members. -/
theorem heapPeek_mem (q : List AttachmentsBatch) (b : AttachmentsBatch)
    (h : heapPeek q = some b) : b ∈ q := by
  cases q with
  | nil => simp [heapPeek] at h
  | cons hd tl =>
    have key : ∀ (l : List AttachmentsBatch) (a : AttachmentsBatch),
        l.foldl (fun best x => if AttachmentsBatch.cmp x best = Ordering.gt then x else best) a
            = a ∨
          l.foldl (fun best x => if AttachmentsBatch.cmp x best = Ordering.gt then x else best) a
            ∈ l := by
      intro l
      induction l with
      | nil => intro a; exact Or.inl rfl
      | cons x xs ih =>
        intro a
        simp only [List.foldl_cons]
        rcases ih (if AttachmentsBatch.cmp x a = Ordering.gt then x else a) with h' | h'
        · rw [h']
          by_cases hcmp : AttachmentsBatch.cmp x a = Ordering.gt
          · rw [if_pos hcmp]; exact Or.inr (List.mem_cons_self x xs)
          · rw [if_neg hcmp]; exact Or.inl rfl
        · exact Or.inr (List.mem_cons_of_mem x h')
    simp only [heapPeek, Option.some.injEq] at h
    rcases key tl hd with h' | h'
    · rw [← h]; rw [h']; exact List.mem_cons_self hd tl
    · rw [← h]; exact List.mem_cons_of_mem hd h'

/-- **C5.** Priority order of `AttachmentsBatch` in the downloader's
max-heap (`cmp A B = gt` means `A` is popped before `B`): a strictly
earlier `retry_deadline` wins regardless of sizes, then more missing
instances wins, then the lower `block_height` wins; and
`pop_next_ready_batch` yields nothing when no queued batch has its
`retry_deadline` strictly before the current epoch time. -/
theorem attachments_batch_priority_and_pop (A B : AttachmentsBatch) (now : Nat)
    (q : List AttachmentsBatch) :
    (A.retry_deadline < B.retry_deadline → AttachmentsBatch.cmp A B = Ordering.gt) ∧
      (A.retry_deadline = B.retry_deadline →
        B.attachments_instances_count < A.attachments_instances_count →
        AttachmentsBatch.cmp A B = Ordering.gt) ∧
      (A.retry_deadline = B.retry_deadline →
        A.attachments_instances_count = B.attachments_instances_count →
        A.block_height < B.block_height →
        AttachmentsBatch.cmp A B = Ordering.gt) ∧
      ((∀ b ∈ q, ¬ b.retry_deadline < now) → pop_next_ready_batch now q = none) := by
  refine ⟨?_, ?_, ?_, ?_⟩
  · intro hdl
    unfold AttachmentsBatch.cmp
    rw [cmpNat_eq_gt.mpr hdl]
    rfl
  · intro hdl hcount
    unfold AttachmentsBatch.cmp
    rw [cmpNat_eq_eq.mpr hdl.symm]
    show ((cmpNat _ _).then _) = _
    rw [cmpNat_eq_gt.mpr hcount]
    rfl
  · intro hdl hcount hheight
    unfold AttachmentsBatch.cmp
    rw [cmpNat_eq_eq.mpr hdl.symm]
    show ((cmpNat _ _).then _) = _
    rw [cmpNat_eq_eq.mpr hcount]
    show cmpNat _ _ = _
    exact cmpNat_eq_gt.mpr hheight
  · intro hnone
    unfold pop_next_ready_batch
    cases hpeek : heapPeek q with
    | none => rfl
    | some next =>
      have hmem := heapPeek_mem q next hpeek
      show (if next.retry_deadline < now then some next else none) = none
      rw [if_neg (hnone next hmem)]

/-- Concrete batches for the **C5** witness. -/
def ce5A : AttachmentsBatch := ⟨3, 0, [(1, [(0, 9), (1, 9)])], 0, 50⟩

def ce5B : AttachmentsBatch := ⟨3, 0, [(1, [(0, 9)])], 0, 100⟩

def ce5C : AttachmentsBatch := ⟨3, 0, [(1, [(0, 9), (1, 9)])], 0, 100⟩

def ce5D : AttachmentsBatch := ⟨7, 0, [(1, [(0, 9)])], 0, 100⟩

/-- Witness for **C5**: deadline 50 beats deadline 100; on equal
deadlines two missing instances beat one; on equal deadline and count
height 3 beats height 7; and a queue whose only deadline is 100 pops
nothing at `now = 40`. -/
theorem attachments_batch_priority_and_pop_witness :
    AttachmentsBatch.cmp ce5A ce5B = Ordering.gt ∧
      AttachmentsBatch.cmp ce5C ce5B = Ordering.gt ∧
      AttachmentsBatch.cmp ce5B ce5D = Ordering.gt ∧
      pop_next_ready_batch 40 [ce5B] = none :=
  ⟨(attachments_batch_priority_and_pop ce5A ce5B 40 [ce5B]).1 (by decide),
    (attachments_batch_priority_and_pop ce5C ce5B 40 [ce5B]).2.1 (by decide) (by decide),
    (attachments_batch_priority_and_pop ce5B ce5D 40 [ce5B]).2.2.1 (by decide) (by decide)
      (by decide),
    (attachments_batch_priority_and_pop ce5A ce5B 40 [ce5B]).2.2.2 (by decide)⟩

/-- Concrete data for settling **C3**: a cached block seen before but
not yet voted on (`vote = none`). -/
def ce3Block : NakamotoBlock := ⟨[], some [7]⟩

def ce3BlocksNoVote : List (List Nat × BlockInfo) := [([1], ⟨ce3Block, none, true⟩)]

/-- **C3, counterexample.** The claim predicts that with a cache entry
whose vote is not yet set the request is *accepted* (returns `true`)
with its message unchanged; the source instead returns `false` for a
block it has seen but not yet agreed to sign. -/
theorem validate_signature_share_request_rejects_unvoted :
    alist_lookup ce3BlocksNoVote [1] = some ⟨ce3Block, none, true⟩ ∧
      validate_signature_share_request ce3BlocksNoVote [1] = (false, [1]) := by decide

/-- **C3, amended.** `validate_signature_share_request`: a cache entry
with a vote rewrites the message to that vote and accepts; an entry
without a vote *rejects* (returns `false`) leaving the message
unchanged; no entry accepts with the message unchanged.  Consequently
the message is left unchanged iff no prior vote exists for that hash or
the stored vote already equals the incoming message. -/
theorem validate_signature_share_request_amended
    (blocks : List (List Nat × BlockInfo)) (message : List Nat) :
    (∀ bi vote, alist_lookup blocks message = some bi → bi.vote = some vote →
        validate_signature_share_request blocks message = (true, vote)) ∧
      (∀ bi, alist_lookup blocks message = some bi → bi.vote = none →
        validate_signature_share_request blocks message = (false, message)) ∧
      (alist_lookup blocks message = none →
        validate_signature_share_request blocks message = (true, message)) ∧
      ((validate_signature_share_request blocks message).2 = message ↔
        ∀ bi, alist_lookup blocks message = some bi →
          bi.vote = none ∨ bi.vote = some message) := by
  refine ⟨?_, ?_, ?_, ?_⟩
  · intro bi vote hbi hvote
    unfold validate_signature_share_request
    rw [hbi]
    simp [hvote]
  · intro bi hbi hvote
    unfold validate_signature_share_request
    rw [hbi]
    simp [hvote]
  · intro hnone
    unfold validate_signature_share_request
    rw [hnone]
    rfl
  · cases hbi : alist_lookup blocks message with
    | none =>
      have hv : validate_signature_share_request blocks message = (true, message) := by
        unfold validate_signature_share_request
        rw [hbi]
        rfl
      rw [hv]
      exact ⟨fun _ bi' hbi' => (by cases hbi'), fun _ => rfl⟩
    | some bi =>
      cases hvote : bi.vote with
      | none =>
        have hv : validate_signature_share_request blocks message = (false, message) := by
          unfold validate_signature_share_request
          rw [hbi]
          simp [hvote]
        rw [hv]
        refine ⟨fun _ bi' hbi' => ?_, fun _ => rfl⟩
        injection hbi' with hbieq
        subst hbieq
        exact Or.inl hvote
      | some vote =>
        have hv : validate_signature_share_request blocks message = (true, vote) := by
          unfold validate_signature_share_request
          rw [hbi]
          simp [hvote]
        rw [hv]
        constructor
        · intro hveq bi' hbi'
          injection hbi' with hbieq
          subst hbieq
          exact Or.inr (hvote.trans (congrArg some hveq))
        · intro hall
          rcases hall bi rfl with h | h
          · rw [hvote] at h; cases h
          · rw [hvote] at h
            exact Option.some.inj h

/-- A cached block with a recorded vote, for the **C3** witness. -/
def ce3BlocksVoted : List (List Nat × BlockInfo) := [([1], ⟨ce3Block, some [9], true⟩)]

/-- Witness for the amended **C3**, exercising all three cases. -/
theorem validate_signature_share_request_amended_witness :
    validate_signature_share_request ce3BlocksVoted [1] = (true, [9]) ∧
      validate_signature_share_request ce3BlocksNoVote [1] = (false, [1]) ∧
      validate_signature_share_request [] [2] = (true, [2]) :=
  ⟨(validate_signature_share_request_amended ce3BlocksVoted [1]).1 ⟨ce3Block, some [9], true⟩
      [9] (by decide) (by decide),
    (validate_signature_share_request_amended ce3BlocksNoVote [1]).2.1 ⟨ce3Block, none, true⟩
      (by decide) (by decide),
    (validate_signature_share_request_amended [] [2]).2.2.1 (by decide)⟩

/-- **C4.** For a nonce request whose message decodes to a block with
signature hash `h`: the function returns `true`, the block (the cached
one if already present, else the decoded one) is cached, and both the
rewritten request message and the cached vote equal `h ++ [0x6e]` when
the block is judged invalid and the bare `h` when it is judged valid
(judgement being `validate_block` on the cache entry). -/
theorem validate_nonce_request_rewrites_vote
    (read_block : List Nat → Option NakamotoBlock)
    (blocks : List (List Nat × BlockInfo)) (transactions : List Nat)
    (message : List Nat) (block : NakamotoBlock) (h : List Nat)
    (hdec : read_block message = some block) (hhash : block.sigHash = some h) :
    (validate_nonce_request read_block blocks transactions message).1 = true ∧
      ((validate_block ((alist_lookup blocks h).getD ⟨block, none, false⟩) transactions
          = false →
        (validate_nonce_request read_block blocks transactions message).2.1 = h ++ [0x6e] ∧
          alist_lookup (validate_nonce_request read_block blocks transactions message).2.2 h =
            some ⟨((alist_lookup blocks h).getD ⟨block, none, false⟩).block,
              some (h ++ [0x6e]), false⟩) ∧
       (validate_block ((alist_lookup blocks h).getD ⟨block, none, false⟩) transactions
          = true →
        (validate_nonce_request read_block blocks transactions message).2.1 = h ∧
          alist_lookup (validate_nonce_request read_block blocks transactions message).2.2 h =
            some ⟨((alist_lookup blocks h).getD ⟨block, none, false⟩).block, some h, true⟩)) := by
  have hval : validate_nonce_request read_block blocks transactions message =
      (true,
        (if validate_block ((alist_lookup blocks h).getD ⟨block, none, false⟩) transactions
          then h else h ++ [0x6e]),
        alist_insert blocks h
          ⟨((alist_lookup blocks h).getD ⟨block, none, false⟩).block,
            some (if validate_block ((alist_lookup blocks h).getD ⟨block, none, false⟩)
                transactions then h else h ++ [0x6e]),
            validate_block ((alist_lookup blocks h).getD ⟨block, none, false⟩) transactions⟩) := by
    unfold validate_nonce_request
    rw [hdec]
    simp only [hhash]
  refine ⟨by rw [hval], ?_, ?_⟩
  · intro hinvalid
    rw [hval]
    simp [hinvalid, alist_lookup_insert]
  · intro hvalid
    rw [hval]
    simp [hvalid, alist_lookup_insert]

/-- Concrete decoder and blocks for the **C4** witness: `[0]` decodes to
a block with signature hash `[5]`. -/
def ce4Block : NakamotoBlock := ⟨[], some [5]⟩

def ce4Read (m : List Nat) : Option NakamotoBlock :=
  if m = [0] then some ce4Block else none

/-- A cache holding `ce4Block` already marked valid, so that the nonce
request is judged valid. -/
def ce4BlocksValid : List (List Nat × BlockInfo) := [([5], ⟨ce4Block, none, true⟩)]

/-- Witness for **C4**, exercising the invalid case (empty cache: the
fresh entry's `valid` flag is `false`) and the valid case (the cache
already holds the block marked valid). -/
theorem validate_nonce_request_rewrites_vote_witness :
    ((validate_nonce_request ce4Read [] [] [0]).1 = true ∧
        (validate_nonce_request ce4Read [] [] [0]).2.1 = [5] ++ [0x6e] ∧
        alist_lookup (validate_nonce_request ce4Read [] [] [0]).2.2 [5] =
          some ⟨ce4Block, some ([5] ++ [0x6e]), false⟩) ∧
      ((validate_nonce_request ce4Read ce4BlocksValid [] [0]).2.1 = [5] ∧
        alist_lookup (validate_nonce_request ce4Read ce4BlocksValid [] [0]).2.2 [5] =
          some ⟨ce4Block, some [5], true⟩) :=
  ⟨⟨(validate_nonce_request_rewrites_vote ce4Read [] [] [0] ce4Block [5] (by decide)
        (by decide)).1,
      (validate_nonce_request_rewrites_vote ce4Read [] [] [0] ce4Block [5] (by decide)
        (by decide)).2.1 (by decide)⟩,
    (validate_nonce_request_rewrites_vote ce4Read ce4BlocksValid [] [0] ce4Block [5] (by decide)
      (by decide)).2.2 (by decide)⟩

/-- A batch whose `retry_count` makes the post-increment count `2 ^ 32`,
so that the source's `as u32` cast truncates the exponent to `0`. -/
def ce7Batch : AttachmentsBatch := ⟨0, 0, [], 2 ^ 32 - 1, 0⟩

/-- **C7, counterexample.** The claim asserts `now + 2 ≤ retry_deadline`
for *every* batch, but at `retry_count = 2 ^ 32 - 1` (with `rand = 0`,
`now = 0`, `MAX_RETRY_DELAY = 600`) the `as u32` cast of the
post-increment count truncates the exponent of
`2u64.saturating_pow(retry_count as u32)` to `0`, so the delay is
`min(600, 2 ^ 0 + 0) = 1` (and `min M 1 = 1` for any
`MAX_RETRY_DELAY ≥ 1`). -/
theorem bump_retry_count_truncation_counterexample :
    (bump_retry_count 600 0 0 ce7Batch).retry_deadline = 1 ∧
      ¬ (0 + 2 ≤ (bump_retry_count 600 0 0 ce7Batch).retry_deadline) := by decide

/-- **C7, amended.** Whenever `MAX_RETRY_DELAY ≥ 2` and the
post-increment retry count fits a `u32` (so the cast does not truncate),
`bump_retry_count` sets `retry_deadline = now + delay` with
`2 ≤ delay ≤ MAX_RETRY_DELAY`, the delay being
`min(MAX_RETRY_DELAY, sat(2 ^ rc) + rand mod sat(2 ^ (rc - 1)))` with
`u64`-saturating powers, for the post-increment count `rc`. -/
theorem bump_retry_count_amended (M now rand : Nat) (b : AttachmentsBatch)
    (hM : 2 ≤ M) (hrc : b.retry_count + 1 < 2 ^ 32) :
    (bump_retry_count M now rand b).retry_count = b.retry_count + 1 ∧
      (bump_retry_count M now rand b).retry_deadline =
        now + min M
          (u64_saturating_add (u64_saturating_pow2 (b.retry_count + 1))
            (rand % u64_saturating_pow2 b.retry_count)) ∧
      now + 2 ≤ (bump_retry_count M now rand b).retry_deadline ∧
      (bump_retry_count M now rand b).retry_deadline ≤ now + M := by
  have hmod₁ : (b.retry_count + 1) % 2 ^ 32 = b.retry_count + 1 := Nat.mod_eq_of_lt hrc
  have hmod₀ : (b.retry_count + 1 - 1) % 2 ^ 32 = b.retry_count :=
    Nat.mod_eq_of_lt (by omega)
  have hdl : (bump_retry_count M now rand b).retry_deadline =
      now + min M
        (u64_saturating_add (u64_saturating_pow2 (b.retry_count + 1))
          (rand % u64_saturating_pow2 b.retry_count)) := by
    simp only [bump_retry_count]
    rw [hmod₁, hmod₀]
  have hpow : 2 ≤ u64_saturating_pow2 (b.retry_count + 1) := by
    unfold u64_saturating_pow2
    split
    · unfold U64_MAX; norm_num
    · calc (2 : Nat) = 2 ^ 1 := by norm_num
        _ ≤ 2 ^ (b.retry_count + 1) := Nat.pow_le_pow_right (by norm_num) (by omega)
  have hmax : 2 ≤ U64_MAX := by unfold U64_MAX; norm_num
  have hsat : 2 ≤ u64_saturating_add (u64_saturating_pow2 (b.retry_count + 1))
      (rand % u64_saturating_pow2 b.retry_count) := by
    unfold u64_saturating_add
    omega
  refine ⟨by simp only [bump_retry_count], hdl, ?_, ?_⟩
  · rw [hdl]; omega
  · rw [hdl]; omega

/-- Witness for the amended **C7**: a fresh batch at
`M = 600, now = 100, rand = 3` gets `retry_count = 1` and
`retry_deadline = 102`. -/
theorem bump_retry_count_amended_witness :
    (bump_retry_count 600 100 3 AttachmentsBatch.new).retry_count =
        AttachmentsBatch.new.retry_count + 1 ∧
      (bump_retry_count 600 100 3 AttachmentsBatch.new).retry_deadline =
        100 + min 600
          (u64_saturating_add (u64_saturating_pow2 (AttachmentsBatch.new.retry_count + 1))
            (3 % u64_saturating_pow2 AttachmentsBatch.new.retry_count)) ∧
      100 + 2 ≤ (bump_retry_count 600 100 3 AttachmentsBatch.new).retry_deadline ∧
      (bump_retry_count 600 100 3 AttachmentsBatch.new).retry_deadline ≤ 100 + 600 :=
  bump_retry_count_amended 600 100 3 AttachmentsBatch.new (by norm_num) (by decide)

/-- A batch with an empty instance map records nothing. -/
theorem batch_lookup_nil (b : AttachmentsBatch) (hemp : b.attachments_instances = [])
    (c idx : Nat) : batch_lookup b c idx = none := by
  unfold batch_lookup
  rw [hemp]
  rfl

/-- Lookup after the `entry` insert step of `track_attachment`: the
instance's own slot holds its content hash, every other slot is
unchanged. -/
theorem batch_lookup_track_insert (b : AttachmentsBatch) (a : AttachmentInstance)
    (c idx : Nat) :
    batch_lookup (AttachmentsBatch.track_insert b a) c idx =
      if a.contract_id = c ∧ a.attachment_index = idx then some a.content_hash
      else batch_lookup b c idx := by
  have hmap : (AttachmentsBatch.track_insert b a).attachments_instances =
      alist_insert b.attachments_instances a.contract_id
        (alist_insert ((alist_lookup b.attachments_instances a.contract_id).getD [])
          a.attachment_index a.content_hash) := rfl
  unfold batch_lookup
  rw [hmap, alist_lookup_insert]
  by_cases hc : a.contract_id = c
  · rw [if_pos hc]
    show alist_lookup
        (alist_insert ((alist_lookup b.attachments_instances a.contract_id).getD [])
          a.attachment_index a.content_hash) idx = _
    rw [alist_lookup_insert]
    by_cases hidx : a.attachment_index = idx
    · rw [if_pos hidx, if_pos ⟨hc, hidx⟩]
    · rw [if_neg hidx, if_neg (fun hk => hidx hk.2)]
      subst hc
      cases houter : alist_lookup b.attachments_instances a.contract_id with
      | none => simp [houter, alist_lookup]
      | some inner => simp [houter]
  · rw [if_neg hc, if_neg (fun hk => hc hk.1)]

/-- Every slot recorded in `b` originates in an instance drawn from `S`
that shares the batch's `(block_height, index_block_hash)` pair. -/
def batch_inv (S : AttachmentInstance → Prop) (b : AttachmentsBatch) : Prop :=
  ∀ c idx h, batch_lookup b c idx = some h →
    ∃ a, S a ∧ a.contract_id = c ∧ a.attachment_index = idx ∧ a.content_hash = h ∧
      a.block_height = b.block_height ∧ a.index_block_hash = b.index_block_hash

theorem batch_inv_mono {S T : AttachmentInstance → Prop} {b : AttachmentsBatch}
    (hST : ∀ x, S x → T x) (h : batch_inv S b) : batch_inv T b := by
  intro c idx hsh hl
  obtain ⟨a, hSa, rest⟩ := h c idx hsh hl
  exact ⟨a, hST a hSa, rest⟩

/-- `track_attachment` preserves the origin invariant, extending the
set of possible origins by the tracked instance. -/
theorem batch_inv_track (S : AttachmentInstance → Prop) (b : AttachmentsBatch)
    (a : AttachmentInstance) (hb : batch_inv S b) :
    batch_inv (fun x => S x ∨ x = a) (AttachmentsBatch.track_attachment b a) := by
  intro c idx hsh hl
  by_cases hemp : b.attachments_instances = []
  · have hred : AttachmentsBatch.track_attachment b a =
        AttachmentsBatch.track_insert
          { b with block_height := a.block_height, index_block_hash := a.index_block_hash }
          a := by
      unfold AttachmentsBatch.track_attachment
      rw [if_pos hemp]
    rw [hred] at hl ⊢
    rw [batch_lookup_track_insert] at hl
    by_cases hk : a.contract_id = c ∧ a.attachment_index = idx
    · rw [if_pos hk] at hl
      injection hl with hlh
      exact ⟨a, Or.inr rfl, hk.1, hk.2, hlh, rfl, rfl⟩
    · rw [if_neg hk] at hl
      rw [batch_lookup_nil
        { b with block_height := a.block_height, index_block_hash := a.index_block_hash }
        hemp] at hl
      cases hl
  · by_cases hdiff : b.block_height ≠ a.block_height ∨ b.index_block_hash ≠ a.index_block_hash
    · have hred : AttachmentsBatch.track_attachment b a = b := by
        unfold AttachmentsBatch.track_attachment
        rw [if_neg hemp, if_pos hdiff]
      rw [hred] at hl ⊢
      obtain ⟨a', hS, h1, h2, h3, h4, h5⟩ := hb c idx hsh hl
      exact ⟨a', Or.inl hS, h1, h2, h3, h4, h5⟩
    · have hred : AttachmentsBatch.track_attachment b a =
          AttachmentsBatch.track_insert b a := by
        unfold AttachmentsBatch.track_attachment
        rw [if_neg hemp, if_neg hdiff]
      push_neg at hdiff
      rw [hred] at hl ⊢
      rw [batch_lookup_track_insert] at hl
      by_cases hk : a.contract_id = c ∧ a.attachment_index = idx
      · rw [if_pos hk] at hl
        injection hl with hlh
        exact ⟨a, Or.inr rfl, hk.1, hk.2, hlh, hdiff.1.symm, hdiff.2.symm⟩
      · rw [if_neg hk] at hl
        obtain ⟨a', hS, h1, h2, h3, h4, h5⟩ := hb c idx hsh hl
        exact ⟨a', Or.inl hS, h1, h2, h3, h4, h5⟩

/-- The origin invariant is preserved along a whole fold of
`track_attachment`. -/
theorem batch_inv_foldl (l : List AttachmentInstance) :
    ∀ (S : AttachmentInstance → Prop) (b : AttachmentsBatch), batch_inv S b →
      batch_inv (fun x => S x ∨ x ∈ l) (l.foldl AttachmentsBatch.track_attachment b) := by
  induction l with
  | nil =>
    intro S b h
    exact batch_inv_mono (fun x hx => Or.inl hx) h
  | cons hd tl ih =>
    intro S b h
    have h1 := batch_inv_track S b hd h
    have h2 := ih (fun x => S x ∨ x = hd) (AttachmentsBatch.track_attachment b hd) h1
    refine batch_inv_mono ?_ h2
    intro x hx
    rcases hx with (hx | hx) | hx
    · exact Or.inl hx
    · exact Or.inr (by rw [hx]; exact List.mem_cons_self hd tl)
    · exact Or.inr (List.mem_cons_of_mem hd hx)

/-- A fresh batch satisfies the invariant vacuously. -/
theorem batch_inv_new : batch_inv (fun _ => False) AttachmentsBatch.new := by
  intro c idx hsh hl
  rw [batch_lookup_nil AttachmentsBatch.new rfl] at hl
  cases hl

/-- **C8.** `track_attachment` records the first instance's
`(block_height, index_block_hash)` pair, leaves the batch unchanged for
any instance whose pair differs from a non-empty batch's pair, and
consequently every batch built by `enqueue_new_attachments` (a fold of
`track_attachment` from `new`, as pushed onto the priority queue) only
records slots of instances sharing the batch's single pair. -/
theorem track_attachment_single_pair (a : AttachmentInstance) (b : AttachmentsBatch)
    (l : List AttachmentInstance)
    (hne : b.attachments_instances ≠ [])
    (hdiff : b.block_height ≠ a.block_height ∨ b.index_block_hash ≠ a.index_block_hash) :
    ((AttachmentsBatch.track_attachment AttachmentsBatch.new a).block_height = a.block_height ∧
      (AttachmentsBatch.track_attachment AttachmentsBatch.new a).index_block_hash =
        a.index_block_hash) ∧
      AttachmentsBatch.track_attachment b a = b ∧
      (∀ c idx h, batch_lookup (build_batch l) c idx = some h →
        ∃ i, i ∈ l ∧ i.contract_id = c ∧ i.attachment_index = idx ∧ i.content_hash = h ∧
          i.block_height = (build_batch l).block_height ∧
          i.index_block_hash = (build_batch l).index_block_hash) := by
  have hpair : (AttachmentsBatch.track_attachment AttachmentsBatch.new a).block_height
        = a.block_height ∧
      (AttachmentsBatch.track_attachment AttachmentsBatch.new a).index_block_hash
        = a.index_block_hash := by
    unfold AttachmentsBatch.track_attachment
    rw [if_pos (show AttachmentsBatch.new.attachments_instances = [] from rfl)]
    exact ⟨rfl, rfl⟩
  refine ⟨hpair, ?_, ?_⟩
  · unfold AttachmentsBatch.track_attachment
    rw [if_neg hne, if_pos hdiff]
  · intro c idx hsh hl
    obtain ⟨i, hi, rest⟩ := batch_inv_foldl l (fun _ => False) AttachmentsBatch.new
      batch_inv_new c idx hsh hl
    rcases hi with hF | hmem
    · cases hF
    · exact ⟨i, hmem, rest⟩

/-- Concrete instances for the **C8** witness: `ce8a` and `ce8b` share
the pair `(5, 7)`, `ce8c` has a different block height and must be
ignored; `ce8Batch` is a non-empty batch with pair `(1, 1)`. -/
def ce8a : AttachmentInstance := ⟨9, 0, 5, 7, 1⟩

def ce8b : AttachmentInstance := ⟨8, 1, 5, 7, 2⟩

def ce8c : AttachmentInstance := ⟨4, 2, 6, 7, 1⟩

def ce8Batch : AttachmentsBatch := ⟨1, 1, [(1, [(0, 9)])], 0, 0⟩

/-- Witness for **C8** at concrete instances. -/
theorem track_attachment_single_pair_witness :
    ((AttachmentsBatch.track_attachment AttachmentsBatch.new ce8a).block_height =
        ce8a.block_height ∧
      (AttachmentsBatch.track_attachment AttachmentsBatch.new ce8a).index_block_hash =
        ce8a.index_block_hash) ∧
      AttachmentsBatch.track_attachment ce8Batch ce8a = ce8Batch ∧
      (∃ i, i ∈ [ce8a, ce8b, ce8c] ∧ i.contract_id = 2 ∧ i.attachment_index = 1 ∧
        i.content_hash = 8 ∧
        i.block_height = (build_batch [ce8a, ce8b, ce8c]).block_height ∧
        i.index_block_hash = (build_batch [ce8a, ce8b, ce8c]).index_block_hash) :=
  ⟨(track_attachment_single_pair ce8a ce8Batch [ce8a, ce8b, ce8c] (by decide) (by decide)).1,
    (track_attachment_single_pair ce8a ce8Batch [ce8a, ce8b, ce8c] (by decide) (by decide)).2.1,
    (track_attachment_single_pair ce8a ce8Batch [ce8a, ce8b, ce8c] (by decide)
      (by decide)).2.2 2 1 8 (by decide)⟩

end Stacks
